import Mathlib

/-!
# Verification of the commit-history & effort-estimation engine

Shallow embedding of the Rust sources of `chann/cli-tools` and proofs about
the claims of its specification.

Conventions of the embedding:
* `f64` values are modelled as exact rationals (`ℚ`); the source never relies
  on rounding, and all constants (0.6, 1.2, 20.0, …) are exactly
  representable, so every "≈ within floating tolerance" statement is settled
  as exact equality or as an inequality far beyond any tolerance.
* `chrono::DateTime<Utc>` timestamps are represented by their UNIX second
  count (`Int`); `chrono::Duration` by its signed second count.
  `Duration::num_hours`/`num_minutes` truncate toward zero, which is
  `Int.tdiv`; Rust `%` on `i64` is `Int.tmod`.
* `usize` counters are `Nat`.
* `HashMap` fields are association lists (`List (key × value)`); every
  property proved about them is insensitive to iteration order.
-/

namespace WorkSummary

/-- Embedding of `chrono::Duration::num_hours` (seconds / 3600, truncated
toward zero, as Rust `i64` division does). -/
def durNumHours (secs : Int) : Int := Int.tdiv secs 3600

/-- Embedding of `chrono::Duration::num_minutes`. -/
def durNumMinutes (secs : Int) : Int := Int.tdiv secs 60

/-- `LanguageChange` from `work-summary/src/git/mod.rs`. -/
structure LanguageChange where
  insertions : Nat
  deletions : Nat
deriving DecidableEq, Repr

/-- `CommitInfo` from `work-summary/src/git/mod.rs`.  The timestamp is the
UNIX second count of the `DateTime<Utc>`; `language_changes` is the
`HashMap<String, LanguageChange>` as an association list. -/
structure CommitInfo where
  hash : String
  author : String
  email : String
  timestamp : Int
  message : String
  files_changed : Nat
  insertions : Nat
  deletions : Nat
  language_changes : List (String × LanguageChange)
deriving DecidableEq, Repr

/-- `get_language_weight` from `work-summary/src/git/time_estimator.rs`. -/
def get_language_weight (language : String) : ℚ :=
  match language with
  | "Rust" => 1.5
  | "C++" | "C" => 1.4
  | "Go" => 1.3
  | "Java" | "C#" | "TypeScript" => 1.2
  | "Python" | "Ruby" | "PHP" => 1.1
  | "JavaScript" => 1.0
  | "Swift" | "Kotlin" => 1.2
  | "Shell" => 0.9
  | "HTML" | "CSS" | "SCSS" => 0.7
  | "Markdown" | "JSON" | "YAML" | "TOML" | "XML" => 0.5
  | _ => 1.0

/-- `TimeEstimator::estimate_from_time_gap`.  The argument is the signed
second count of the `chrono::Duration` between two commits.
`MAX_SESSION_GAP_HOURS = 4`. -/
def estimate_from_time_gap (secs : Int) : ℚ :=
  let hours : ℚ := (durNumHours secs : ℚ) + (Int.tmod (durNumMinutes secs) 60 : ℚ) / 60
  if hours < 0 then 0 else min hours 4

/-- The file-count complexity factor computed inline in
`TimeEstimator::estimate_from_changes`.  The branch order is exactly the
source's: `> 5` is tested before `> 10`, so the `1.4` arm is unreachable. -/
def complexity_factor (files_changed : Nat) : ℚ :=
  if files_changed > 5 then 1.2
  else if files_changed > 10 then 1.4
  else 1.0

/-- `TimeEstimator::estimate_from_changes`.  `LINES_PER_HOUR = 20`. -/
def estimate_from_changes (commit : CommitInfo) : ℚ :=
  let total_lines : ℚ := ((commit.insertions + commit.deletions : Nat) : ℚ)
  let weighted : ℚ :=
    (commit.language_changes.map
      (fun p => ((p.2.insertions + p.2.deletions : Nat) : ℚ) * get_language_weight p.1)).sum
  let total_changes : Nat :=
    (commit.language_changes.map (fun p => p.2.insertions + p.2.deletions)).sum
  let weighted_lines := if total_changes = 0 ∧ total_lines > 0 then total_lines else weighted
  let base_hours := weighted_lines / 20
  base_hours * complexity_factor commit.files_changed

/-- `TimeEstimator::estimate_work_hours`.  The source loops over indices
`i`, pairing commit `i` with commit `i+1` (the next older one); the
recursion below pairs each commit with the head of the remaining list,
which is the same pairing.  `TIME_WEIGHT = 0.6`, `CHANGE_WEIGHT = 0.4`. -/
def estimate_work_hours : List CommitInfo → ℚ
  | [] => 0
  | commit :: rest =>
    let time_based : ℚ :=
      match rest with
      | [] => 0
      | next_commit :: _ =>
        estimate_from_time_gap (commit.timestamp - next_commit.timestamp)
    let change_based := estimate_from_changes commit
    let hybrid_estimate :=
      if time_based > 0 then time_based * 0.6 + change_based * 0.4 else change_based
    hybrid_estimate + estimate_work_hours rest

/-- `WorkSession` from `work-summary/src/git/time_estimator.rs`.  The source
field `end` is a Lean keyword and is rendered `end_`. -/
structure WorkSession where
  start : Int
  end_ : Int
  commits : List CommitInfo
  estimated_hours : ℚ
deriving DecidableEq, Repr

/-- The loop of `TimeEstimator::estimate_session_hours`.  `prev` is
`commits[i-1]` of the source loop; it is always the commit most recently
added to `current`, and is threaded explicitly because the recursion
consumes the remaining commits one at a time. -/
def sessionLoop (prev : CommitInfo) (current : WorkSession) :
    List CommitInfo → List WorkSession
  | [] =>
    [{ current with estimated_hours := estimate_work_hours current.commits }]
  | curr :: rest =>
    let time_gap := prev.timestamp - curr.timestamp
    if durNumHours time_gap ≤ 4 then
      sessionLoop curr
        { current with end_ := curr.timestamp, commits := current.commits ++ [curr] } rest
    else
      { current with estimated_hours := estimate_work_hours current.commits } ::
        sessionLoop curr
          { start := curr.timestamp, end_ := curr.timestamp,
            commits := [curr], estimated_hours := 0 } rest

/-- `TimeEstimator::estimate_session_hours`. -/
def estimate_session_hours : List CommitInfo → List WorkSession
  | [] => []
  | c :: rest =>
    sessionLoop c
      { start := c.timestamp, end_ := c.timestamp, commits := [c], estimated_hours := 0 }
      rest

end WorkSummary

namespace WorkSummary

/-- A commit touching 11 files whose only language entry is 20 inserted
JavaScript lines (weight 1.0): base hours 20/20 = 1. -/
def commitC3 : CommitInfo :=
  { hash := "", author := "", email := "", timestamp := 0, message := ""
    files_changed := 11, insertions := 20, deletions := 0
    language_changes := [("JavaScript", { insertions := 20, deletions := 0 })] }

end WorkSummary

namespace WorkSummary

/-- T-remainder (Rust `%`) of a nonpositive dividend is nonpositive. -/
theorem tmod_nonpos {a : Int} (b : Int) (h : a ≤ 0) : Int.tmod a b ≤ 0 := by
  cases a with
  | ofNat m =>
    have hm : m = 0 := by
      by_contra hne
      have hp : (0:Int) < Int.ofNat m := by
        show (0:Int) < (m : Int)
        exact_mod_cast Nat.pos_of_ne_zero hne
      omega
    subst hm
    cases b with
    | ofNat n =>
      show (Int.ofNat (0 % n)) ≤ 0
      simp
    | negSucc n =>
      show (Int.ofNat (0 % (n+1))) ≤ 0
      simp
  | negSucc m =>
    cases b with
    | ofNat n =>
      show -(Int.ofNat ((m+1) % n)) ≤ 0
      have h0 : (0:Int) ≤ Int.ofNat ((m+1) % n) := Int.ofNat_nonneg _
      omega
    | negSucc n =>
      show -(Int.ofNat ((m+1) % (n+1))) ≤ 0
      have h0 : (0:Int) ≤ Int.ofNat ((m+1) % (n+1)) := Int.ofNat_nonneg _
      omega

/-- T-division (Rust `/`) of a nonpositive dividend by a nonnegative divisor
is nonpositive. -/
theorem tdiv_nonpos_of_nonpos {a b : Int} (ha : a ≤ 0) (hb : 0 ≤ b) :
    Int.tdiv a b ≤ 0 := by
  have h1 : Int.tdiv (-(-a)) b = -(Int.tdiv (-a) b) := Int.neg_tdiv (-a) b
  rw [neg_neg] at h1
  rw [h1]
  have h2 := Int.tdiv_nonneg (by omega : (0:Int) ≤ -a) hb
  omega

namespace SpecC4

/-- `time_based` exactly as the claim words it: 0 for a negative gap (and
the oldest commit's gap is defined as 0 by the caller below); otherwise
`floor(hours) + (minutes mod 60)/60`, clamped to at most 4.  For a
nonnegative second count, `floor` of the hour/minute quotients is `Int.tdiv`
and the remainder `mod 60` is `Int.tmod`. -/
def timeBased (secs : Int) : ℚ :=
  if secs < 0 then 0
  else min ((Int.tdiv secs 3600 : ℚ) + (Int.tmod (Int.tdiv secs 60) 60 : ℚ) / 60) 4

/-- The per-commit estimate as the claim words it: `0.6*time_based +
0.4*change_based` when `time_based > 0`, otherwise `change_based` alone;
`time_based` is taken from the gap to the next older commit and is 0 for
the oldest commit. -/
def perCommit (commit : CommitInfo) (next? : Option CommitInfo) : ℚ :=
  let tb : ℚ :=
    match next? with
    | none => 0
    | some next_commit => timeBased (commit.timestamp - next_commit.timestamp)
  if tb > 0 then 0.6 * tb + 0.4 * estimate_from_changes commit
  else estimate_from_changes commit

/-- Total hours as the claim words it: the sum over commits `i` of the
per-commit estimate, commit `i` paired with commit `i+1`. -/
def totalHours : List CommitInfo → ℚ
  | [] => 0
  | c :: rest => perCommit c rest.head? + totalHours rest

end SpecC4

/-- The code's time-gap estimate agrees everywhere with the claim's
formula. -/
theorem estimate_from_time_gap_eq_spec (s : Int) :
    estimate_from_time_gap s = SpecC4.timeBased s := by
  unfold estimate_from_time_gap SpecC4.timeBased durNumHours durNumMinutes
  dsimp only
  rcases lt_or_le s 0 with hs | hs
  · have h1 : Int.tdiv s 3600 ≤ 0 := tdiv_nonpos_of_nonpos hs.le (by norm_num)
    have h2 : Int.tdiv s 60 ≤ 0 := tdiv_nonpos_of_nonpos hs.le (by norm_num)
    have h3 : Int.tmod (Int.tdiv s 60) 60 ≤ 0 := tmod_nonpos _ h2
    have h1q : ((Int.tdiv s 3600 : Int) : ℚ) ≤ 0 := by exact_mod_cast h1
    have h3q : ((Int.tmod (Int.tdiv s 60) 60 : Int) : ℚ) ≤ 0 := by exact_mod_cast h3
    have hq : ((Int.tdiv s 3600 : Int) : ℚ) + ((Int.tmod (Int.tdiv s 60) 60 : Int) : ℚ) / 60 ≤ 0 := by
      have : ((Int.tmod (Int.tdiv s 60) 60 : Int) : ℚ) / 60 ≤ 0 := by
        apply div_nonpos_of_nonpos_of_nonneg h3q
        norm_num
      linarith
    rw [if_pos hs]
    split
    · rfl
    · rename_i hnot
      have hz : ((Int.tdiv s 3600 : Int) : ℚ) + ((Int.tmod (Int.tdiv s 60) 60 : Int) : ℚ) / 60 = 0 :=
        le_antisymm hq (not_lt.mp hnot)
      rw [hz]
      exact min_eq_left (by norm_num)
  · have h1 : 0 ≤ Int.tdiv s 3600 := Int.tdiv_nonneg hs (by norm_num)
    have h3 : 0 ≤ Int.tmod (Int.tdiv s 60) 60 :=
      Int.tmod_nonneg _ (Int.tdiv_nonneg hs (by norm_num))
    have h1q : (0:ℚ) ≤ ((Int.tdiv s 3600 : Int) : ℚ) := by exact_mod_cast h1
    have h3q : (0:ℚ) ≤ ((Int.tmod (Int.tdiv s 60) 60 : Int) : ℚ) := by exact_mod_cast h3
    have hq : (0:ℚ) ≤ ((Int.tdiv s 3600 : Int) : ℚ) + ((Int.tmod (Int.tdiv s 60) 60 : Int) : ℚ) / 60 := by
      have : (0:ℚ) ≤ ((Int.tmod (Int.tdiv s 60) 60 : Int) : ℚ) / 60 := by positivity
      linarith
    rw [if_neg (not_lt.mpr hq), if_neg (not_lt.mpr hs)]

/-- One step of `estimate_work_hours` on a list with at least two commits. -/
theorem estimate_work_hours_cons (c0 c1 : CommitInfo) (tl : List CommitInfo) :
    estimate_work_hours (c0 :: c1 :: tl) =
      (if estimate_from_time_gap (c0.timestamp - c1.timestamp) > 0
       then estimate_from_time_gap (c0.timestamp - c1.timestamp) * 0.6 +
         estimate_from_changes c0 * 0.4
       else estimate_from_changes c0) + estimate_work_hours (c1 :: tl) := rfl

/-- `estimate_work_hours` of a single commit is its change-based estimate:
its `time_based` component is 0. -/
theorem estimate_work_hours_single (c0 : CommitInfo) :
    estimate_work_hours [c0] = estimate_from_changes c0 := by
  show (if (0:ℚ) > 0 then (0:ℚ) * 0.6 + estimate_from_changes c0 * 0.4
        else estimate_from_changes c0) + estimate_work_hours [] = _
  norm_num [estimate_work_hours]

theorem totalHours_cons (c0 : CommitInfo) (rest : List CommitInfo) :
    SpecC4.totalHours (c0 :: rest) =
      SpecC4.perCommit c0 rest.head? + SpecC4.totalHours rest := rfl

/-- The commits of the C4 witness: a 2-hour gap, then an oldest commit with
5 raw changed lines and no language entries. -/
def commitC4a : CommitInfo :=
  { hash := "", author := "", email := "", timestamp := 7200, message := ""
    files_changed := 1, insertions := 0, deletions := 0, language_changes := [] }

def commitC4b : CommitInfo :=
  { hash := "", author := "", email := "", timestamp := 0, message := ""
    files_changed := 1, insertions := 5, deletions := 0, language_changes := [] }

end WorkSummary

/-- **C4.** The total estimated hours is the sum over commits of the hybrid
per-commit estimate, with `time_based` computed from the gap to the next
older commit exactly as the claim words it (`floor(hours) + (minutes mod
60)/60`, clamped to `[0,4]`, 0 for a negative gap and for the oldest
commit), combined as `0.6*time_based + 0.4*change_based` when
`time_based > 0` and as `change_based` alone otherwise; and for a commit
with no language entries but positive raw insertions+deletions,
`change_based` falls back to the raw line count at weight 1.0 over the
throughput divisor 20, times the file-count complexity factor. -/
theorem C4_total_formula (cs : List WorkSummary.CommitInfo)
    (c : WorkSummary.CommitInfo) (h1 : c.language_changes = [])
    (h2 : 0 < c.insertions + c.deletions) :
    WorkSummary.estimate_work_hours cs = WorkSummary.SpecC4.totalHours cs ∧
      WorkSummary.estimate_from_changes c =
        ((c.insertions : ℚ) + (c.deletions : ℚ)) * 1.0 / 20 *
          WorkSummary.complexity_factor c.files_changed := by
  constructor
  · induction cs with
    | nil => rfl
    | cons c0 rest ih =>
      cases rest with
      | nil =>
        rw [WorkSummary.estimate_work_hours_single, WorkSummary.totalHours_cons]
        simp [WorkSummary.SpecC4.perCommit, WorkSummary.SpecC4.totalHours]
      | cons c1 tl =>
        rw [WorkSummary.estimate_work_hours_cons, WorkSummary.totalHours_cons, ih]
        have hgap :=
          WorkSummary.estimate_from_time_gap_eq_spec (c0.timestamp - c1.timestamp)
        simp only [WorkSummary.SpecC4.perCommit, List.head?, hgap]
        split <;> ring
  · have hlin : (0:ℚ) < (c.insertions : ℚ) + (c.deletions : ℚ) := by
      have : (0:ℚ) < ((c.insertions + c.deletions : Nat) : ℚ) := by exact_mod_cast h2
      push_cast at this
      linarith
    unfold WorkSummary.estimate_from_changes
    rw [h1]
    simp only [List.map_nil, List.sum_nil]
    rw [if_pos ⟨trivial, by push_cast; linarith⟩]
    push_cast
    ring

/-- Witness for C4 at a concrete two-commit history. -/
theorem C4_total_formula_witness :
    WorkSummary.estimate_work_hours [WorkSummary.commitC4a, WorkSummary.commitC4b] =
        WorkSummary.SpecC4.totalHours [WorkSummary.commitC4a, WorkSummary.commitC4b] ∧
      WorkSummary.estimate_from_changes WorkSummary.commitC4b =
        ((WorkSummary.commitC4b.insertions : ℚ) + (WorkSummary.commitC4b.deletions : ℚ)) * 1.0 / 20 *
          WorkSummary.complexity_factor WorkSummary.commitC4b.files_changed :=
  C4_total_formula [WorkSummary.commitC4a, WorkSummary.commitC4b]
    WorkSummary.commitC4b rfl (by norm_num [WorkSummary.commitC4b])

namespace WorkSummary

/-- A truncated whole-hour count of at most 4 means the gap is under 5
hours (18000 seconds) — not under 4 hours. -/
theorem lt_18000_of_numHours_le {g : Int} (h : durNumHours g ≤ 4) : g < 18000 := by
  by_contra hc
  push_neg at hc
  have hg : (0:Int) ≤ g := by omega
  have he : Int.tdiv g 3600 = g / 3600 := Int.tdiv_eq_ediv hg (by norm_num)
  have h5 : (5:Int) ≤ g / 3600 :=
    (Int.le_ediv_iff_mul_le (by norm_num : (0:Int) < 3600)).mpr (by omega)
  unfold durNumHours at h
  omega

/-- A truncated whole-hour count exceeding 4 means the gap is at least 5
hours (18000 seconds). -/
theorem le_18000_of_numHours_gt {g : Int} (h : 4 < durNumHours g) : 18000 ≤ g := by
  by_contra hc
  push_neg at hc
  unfold durNumHours at h
  rcases le_or_lt 0 g with hg | hg
  · have he : Int.tdiv g 3600 = g / 3600 := Int.tdiv_eq_ediv hg (by norm_num)
    have h5 : g / 3600 < 5 := by
      by_contra h5
      push_neg at h5
      have := (Int.le_ediv_iff_mul_le (by norm_num : (0:Int) < 3600)).mp h5
      omega
    omega
  · have := tdiv_nonpos_of_nonpos hg.le (by norm_num : (0:Int) ≤ 3600)
    omega

theorem sessionLoop_nil (prev : CommitInfo) (current : WorkSession) :
    sessionLoop prev current [] =
      [{ current with estimated_hours := estimate_work_hours current.commits }] := rfl

theorem sessionLoop_cons (prev : CommitInfo) (current : WorkSession)
    (curr : CommitInfo) (rest : List CommitInfo) :
    sessionLoop prev current (curr :: rest) =
      if durNumHours (prev.timestamp - curr.timestamp) ≤ 4 then
        sessionLoop curr
          { current with end_ := curr.timestamp, commits := current.commits ++ [curr] } rest
      else
        { current with estimated_hours := estimate_work_hours current.commits } ::
          sessionLoop curr
            { start := curr.timestamp, end_ := curr.timestamp,
              commits := [curr], estimated_hours := 0 } rest := rfl

theorem head?_append_left {α : Type} (l r : List α) (h : l ≠ []) :
    (l ++ r).head? = l.head? := by
  cases l with
  | nil => exact absurd rfl h
  | cons a t => simp

/-- The gap (in seconds) between two adjacent commits kept inside one
session: under 5 hours. -/
def gapWithin (a b : CommitInfo) : Prop := a.timestamp - b.timestamp < 18000

/-- The gap between the last commit of one session and the first commit of
the next: at least 5 hours. -/
def gapBoundary (s t : WorkSession) : Prop :=
  ∀ a ∈ s.commits.getLast?, ∀ b ∈ t.commits.head?, 18000 ≤ a.timestamp - b.timestamp

instance : DecidablePred fun p : CommitInfo × CommitInfo => gapWithin p.1 p.2 :=
  fun _ => by unfold gapWithin; infer_instance

/-- Every session emitted by the loop keeps consecutive commits under 5
hours apart, provided the session built so far does and `prev` is its last
commit. -/
theorem sessionLoop_chain_within (rest : List CommitInfo) :
    ∀ (prev : CommitInfo) (current : WorkSession),
      current.commits.getLast? = some prev →
      List.Chain' gapWithin current.commits →
      ∀ s ∈ sessionLoop prev current rest, List.Chain' gapWithin s.commits := by
  induction rest with
  | nil =>
    intro prev current _ hchain s hs
    rw [sessionLoop_nil] at hs
    simp only [List.mem_singleton] at hs
    subst hs
    exact hchain
  | cons curr rs ih =>
    intro prev current hlast hchain s hs
    rw [sessionLoop_cons] at hs
    split at hs
    · rename_i hle
      refine ih curr _ (by simp) ?_ s hs
      refine List.chain'_append.mpr ⟨hchain, List.chain'_singleton curr, ?_⟩
      intro a ha b hb
      rw [hlast] at ha
      simp only [Option.mem_def, Option.some_inj] at ha
      simp only [List.head?_cons, Option.mem_def, Option.some_inj] at hb
      subst ha
      subst hb
      exact lt_18000_of_numHours_le hle
    · rename_i hgt
      rcases List.mem_cons.mp hs with hs | hs
      · subst hs
        exact hchain
      · exact ih curr _ (by simp) (List.chain'_singleton curr) s hs

/-- The first session the loop will emit starts with the first commit of
the session built so far. -/
theorem sessionLoop_head_commits (rest : List CommitInfo) :
    ∀ (prev : CommitInfo) (current : WorkSession), current.commits ≠ [] →
      ∃ s ss, sessionLoop prev current rest = s :: ss ∧
        s.commits.head? = current.commits.head? := by
  induction rest with
  | nil =>
    intro prev current _
    exact ⟨_, [], sessionLoop_nil prev current, rfl⟩
  | cons curr rs ih =>
    intro prev current hne
    rw [sessionLoop_cons]
    split
    · obtain ⟨s, ss, heq, hhead⟩ := ih curr
        { current with end_ := curr.timestamp, commits := current.commits ++ [curr] }
        (by simp)
      refine ⟨s, ss, heq, ?_⟩
      rw [hhead]
      exact head?_append_left _ _ hne
    · exact ⟨_, _, rfl, rfl⟩

/-- Consecutive sessions emitted by the loop are separated by a gap of at
least 5 hours between the last commit of one and the first of the next. -/
theorem sessionLoop_chain_boundary (rest : List CommitInfo) :
    ∀ (prev : CommitInfo) (current : WorkSession),
      current.commits.getLast? = some prev →
      List.Chain' gapBoundary (sessionLoop prev current rest) := by
  induction rest with
  | nil =>
    intro prev current _
    rw [sessionLoop_nil]
    exact List.chain'_singleton _
  | cons curr rs ih =>
    intro prev current hlast
    rw [sessionLoop_cons]
    split
    · exact ih curr _ (by simp)
    · rename_i hgt
      refine List.chain'_cons'.mpr ⟨?_, ih curr _ (by simp)⟩
      intro t ht
      obtain ⟨s, ss, heq, hhead⟩ :=
        sessionLoop_head_commits rs curr
          { start := curr.timestamp, end_ := curr.timestamp,
            commits := [curr], estimated_hours := 0 } (by simp)
      rw [heq] at ht
      simp only [List.head?_cons, Option.mem_def, Option.some_inj] at ht
      subst ht
      intro a ha b hb
      simp only [hlast, Option.mem_def, Option.some_inj] at ha
      rw [hhead] at hb
      simp only [List.head?_cons, Option.mem_def, Option.some_inj] at hb
      subst ha
      subst hb
      exact le_18000_of_numHours_gt (by omega)

/-- The commits of the C2 counterexample: two commits 4.5 hours
(16200 seconds) apart. -/
def commitC2a : CommitInfo :=
  { hash := "", author := "", email := "", timestamp := 16200, message := ""
    files_changed := 1, insertions := 1, deletions := 0, language_changes := [] }

def commitC2b : CommitInfo :=
  { hash := "", author := "", email := "", timestamp := 0, message := ""
    files_changed := 1, insertions := 1, deletions := 0, language_changes := [] }

/-- The single session produced for the C2 counterexample history. -/
def sessC2 : WorkSession :=
  { start := 16200, end_ := 0, commits := [commitC2a, commitC2b]
    estimated_hours := estimate_work_hours [commitC2a, commitC2b] }

theorem estimate_session_hours_C2 :
    estimate_session_hours [commitC2a, commitC2b] = [sessC2] := rfl

end WorkSummary

/-- **C2 (counterexample).** The session split compares the *truncated*
whole-hour count of the gap with 4, so two commits 4.5 hours apart land in
the same session even though their gap exceeds 4 hours, contradicting the
claim that within-session adjacent gaps are at most 4 hours. -/
theorem C2_counterexample :
    (WorkSummary.estimate_session_hours [WorkSummary.commitC2a, WorkSummary.commitC2b]).map
        WorkSummary.WorkSession.commits = [[WorkSummary.commitC2a, WorkSummary.commitC2b]] ∧
      ¬ (WorkSummary.commitC2a.timestamp - WorkSummary.commitC2b.timestamp ≤ 4 * 3600) := by
  rw [WorkSummary.estimate_session_hours_C2]
  exact ⟨rfl, by decide⟩

/-- **C2 (amended).** For every commit sequence, adjacent commits inside one
returned session are strictly less than 5 hours apart (their truncated
whole-hour gap is at most 4), and the adjacent commits across any session
boundary are at least 5 hours apart (truncated whole-hour gap exceeding 4).
The 4-hour threshold of the claim only holds in this truncated sense. -/
theorem C2_amended (cs : List WorkSummary.CommitInfo) :
    (∀ s ∈ WorkSummary.estimate_session_hours cs,
        List.Chain' WorkSummary.gapWithin s.commits) ∧
      List.Chain' WorkSummary.gapBoundary (WorkSummary.estimate_session_hours cs) := by
  cases cs with
  | nil => exact ⟨fun s hs => absurd hs (List.not_mem_nil s), List.chain'_nil⟩
  | cons c rest =>
    constructor
    · exact WorkSummary.sessionLoop_chain_within rest c _ (by simp)
        (List.chain'_singleton c)
    · exact WorkSummary.sessionLoop_chain_boundary rest c _ (by simp)

/-- Witness for C2 (amended) at the concrete 4.5-hour-gap history. -/
theorem C2_amended_witness :
    List.Chain' WorkSummary.gapWithin WorkSummary.sessC2.commits :=
  (C2_amended [WorkSummary.commitC2a, WorkSummary.commitC2b]).1 WorkSummary.sessC2
    (by rw [WorkSummary.estimate_session_hours_C2]; exact List.mem_singleton.mpr rfl)

namespace WorkSummary

/-- Every session the loop emits carries the estimate of exactly its own
commit subsequence. -/
theorem sessionLoop_hours (rest : List CommitInfo) :
    ∀ (prev : CommitInfo) (current : WorkSession),
      ∀ s ∈ sessionLoop prev current rest,
        s.estimated_hours = estimate_work_hours s.commits := by
  induction rest with
  | nil =>
    intro prev current s hs
    rw [sessionLoop_nil] at hs
    simp only [List.mem_singleton] at hs
    subst hs
    rfl
  | cons curr rs ih =>
    intro prev current s hs
    rw [sessionLoop_cons] at hs
    split at hs
    · exact ih curr _ s hs
    · rcases List.mem_cons.mp hs with hs | hs
      · subst hs; rfl
      · exact ih curr _ s hs

/-- The sessions' commit lists concatenate back to the input sequence. -/
theorem sessionLoop_join (rest : List CommitInfo) :
    ∀ (prev : CommitInfo) (current : WorkSession),
      ((sessionLoop prev current rest).map WorkSession.commits).flatten =
        current.commits ++ rest := by
  induction rest with
  | nil =>
    intro prev current
    rw [sessionLoop_nil]
    simp
  | cons curr rs ih =>
    intro prev current
    rw [sessionLoop_cons]
    split
    · rw [ih]
      simp
    · simp only [List.map_cons, List.flatten_cons]
      rw [ih]
      simp

/-- The commits of the C1 counterexample: two empty-diff commits exactly 5
hours (18000 seconds) apart, so the history splits into two sessions. -/
def commitC1a : CommitInfo :=
  { hash := "", author := "", email := "", timestamp := 18000, message := ""
    files_changed := 0, insertions := 0, deletions := 0, language_changes := [] }

def commitC1b : CommitInfo :=
  { hash := "", author := "", email := "", timestamp := 0, message := ""
    files_changed := 0, insertions := 0, deletions := 0, language_changes := [] }

def sessC1a : WorkSession :=
  { start := 18000, end_ := 18000, commits := [commitC1a]
    estimated_hours := estimate_work_hours [commitC1a] }

def sessC1b : WorkSession :=
  { start := 0, end_ := 0, commits := [commitC1b]
    estimated_hours := estimate_work_hours [commitC1b] }

theorem estimate_session_hours_C1 :
    estimate_session_hours [commitC1a, commitC1b] = [sessC1a, sessC1b] := rfl

theorem estimate_from_changes_C1 (c : CommitInfo) (h1 : c.language_changes = [])
    (h2 : c.insertions = 0) (h3 : c.deletions = 0) :
    estimate_from_changes c = 0 := by
  unfold estimate_from_changes
  rw [h1, h2, h3]
  norm_num

theorem estimate_from_time_gap_18000 : estimate_from_time_gap 18000 = 4 := by
  have h1 : Int.tdiv 18000 3600 = 5 := by decide
  have h2 : Int.tmod (Int.tdiv 18000 60) 60 = 0 := by decide
  unfold estimate_from_time_gap durNumHours durNumMinutes
  rw [h1, h2]
  norm_num

/-- The single session produced for the one-commit C1 witness history. -/
def sessC1w : WorkSession :=
  { start := 0, end_ := 0, commits := [commitC1b]
    estimated_hours := estimate_work_hours [commitC1b] }

theorem estimate_session_hours_C1w :
    estimate_session_hours [commitC1b] = [sessC1w] := rfl

end WorkSummary

/-- **C1 (counterexample).** On two empty-diff commits 5 hours apart the
sessions' estimated hours sum to 0, while `estimate_work_hours` on the full
sequence is 2.4: the newer commit's time-based component (the 4-hour-clamped
cross-boundary gap) is counted in the full-sequence total but in no
session, so the claimed equality fails by 2.4 — far beyond floating
tolerance. -/
theorem C1_counterexample :
    ((WorkSummary.estimate_session_hours [WorkSummary.commitC1a, WorkSummary.commitC1b]).map
        WorkSummary.WorkSession.estimated_hours).sum = 0 ∧
      WorkSummary.estimate_work_hours [WorkSummary.commitC1a, WorkSummary.commitC1b] = 12/5 ∧
      ((WorkSummary.estimate_session_hours [WorkSummary.commitC1a, WorkSummary.commitC1b]).map
          WorkSummary.WorkSession.estimated_hours).sum ≠
        WorkSummary.estimate_work_hours [WorkSummary.commitC1a, WorkSummary.commitC1b] := by
  have ha : WorkSummary.estimate_work_hours [WorkSummary.commitC1a] = 0 := by
    rw [WorkSummary.estimate_work_hours_single]
    exact WorkSummary.estimate_from_changes_C1 _ rfl rfl rfl
  have hb : WorkSummary.estimate_work_hours [WorkSummary.commitC1b] = 0 := by
    rw [WorkSummary.estimate_work_hours_single]
    exact WorkSummary.estimate_from_changes_C1 _ rfl rfl rfl
  have hsum :
      ((WorkSummary.estimate_session_hours [WorkSummary.commitC1a, WorkSummary.commitC1b]).map
        WorkSummary.WorkSession.estimated_hours).sum = 0 := by
    rw [WorkSummary.estimate_session_hours_C1]
    simp [WorkSummary.sessC1a, WorkSummary.sessC1b, ha, hb]
  have htot :
      WorkSummary.estimate_work_hours [WorkSummary.commitC1a, WorkSummary.commitC1b] = 12/5 := by
    rw [WorkSummary.estimate_work_hours_cons]
    have hg : WorkSummary.commitC1a.timestamp - WorkSummary.commitC1b.timestamp = 18000 := rfl
    rw [hg, WorkSummary.estimate_from_time_gap_18000, hb,
      WorkSummary.estimate_from_changes_C1 WorkSummary.commitC1a rfl rfl rfl]
    norm_num
  exact ⟨hsum, htot, by rw [hsum, htot]; norm_num⟩

/-- **C1 (amended).** Each returned session's `estimated_hours` equals
`estimate_work_hours` applied to exactly that session's commits, so the sum
of session hours is the sum of the per-session totals; it equals
`estimate_work_hours` of the full sequence whenever at most one session is
produced.  (With several sessions the full-sequence total also counts the
time-based component of each commit adjacent to a boundary, which no
session sees, so the claimed global equality fails — see the
counterexample.) -/
theorem C1_amended (cs : List WorkSummary.CommitInfo) :
    (∀ s ∈ WorkSummary.estimate_session_hours cs,
        s.estimated_hours = WorkSummary.estimate_work_hours s.commits) ∧
      ((WorkSummary.estimate_session_hours cs).length ≤ 1 →
        ((WorkSummary.estimate_session_hours cs).map
            WorkSummary.WorkSession.estimated_hours).sum =
          WorkSummary.estimate_work_hours cs) := by
  constructor
  · cases cs with
    | nil => intro s hs; cases hs
    | cons c rest => exact WorkSummary.sessionLoop_hours rest c _
  · intro hlen
    cases cs with
    | nil => rfl
    | cons c rest =>
      rw [show WorkSummary.estimate_session_hours (c :: rest) =
        WorkSummary.sessionLoop c
          { start := c.timestamp, end_ := c.timestamp, commits := [c],
            estimated_hours := 0 } rest from rfl] at hlen ⊢
      obtain ⟨s, ss, heq, _⟩ := WorkSummary.sessionLoop_head_commits rest c
        { start := c.timestamp, end_ := c.timestamp, commits := [c], estimated_hours := 0 }
        (by simp)
      rw [heq] at hlen ⊢
      have hss : ss = [] := by
        cases ss with
        | nil => rfl
        | cons t ts => simp at hlen
      subst hss
      have hjoin := WorkSummary.sessionLoop_join rest c
        { start := c.timestamp, end_ := c.timestamp, commits := [c], estimated_hours := 0 }
      rw [heq] at hjoin
      simp only [List.map_cons, List.map_nil, List.flatten_cons, List.flatten_nil,
        List.append_nil] at hjoin
      have hhours := WorkSummary.sessionLoop_hours rest c
        { start := c.timestamp, end_ := c.timestamp, commits := [c], estimated_hours := 0 }
        s (by rw [heq]; exact List.mem_singleton.mpr rfl)
      simp only [List.map_cons, List.map_nil, List.sum_cons, List.sum_nil, add_zero]
      rw [hhours, hjoin]
      simp

/-- Witness for C1 (amended) at a concrete one-commit history. -/
theorem C1_amended_witness :
    WorkSummary.sessC1w.estimated_hours =
        WorkSummary.estimate_work_hours WorkSummary.sessC1w.commits ∧
      ((WorkSummary.estimate_session_hours [WorkSummary.commitC1b]).map
          WorkSummary.WorkSession.estimated_hours).sum =
        WorkSummary.estimate_work_hours [WorkSummary.commitC1b] :=
  ⟨(C1_amended [WorkSummary.commitC1b]).1 WorkSummary.sessC1w
      (by rw [WorkSummary.estimate_session_hours_C1w]; exact List.mem_singleton.mpr rfl),
    (C1_amended [WorkSummary.commitC1b]).2
      (by rw [WorkSummary.estimate_session_hours_C1w]; simp)⟩

namespace WorkSummary

/-- `CommitAnalyzer::extension_to_language` from `work-summary/src/git/mod.rs`:
total on extensions, mapping anything unrecognized to `"Other"`. -/
def extension_to_language (ext : String) : String :=
  match ext with
  | "rs" => "Rust"
  | "py" => "Python"
  | "js" => "JavaScript"
  | "ts" => "TypeScript"
  | "tsx" => "TypeScript"
  | "jsx" => "JavaScript"
  | "go" => "Go"
  | "java" => "Java"
  | "c" => "C"
  | "cpp" | "cc" | "cxx" => "C++"
  | "h" | "hpp" => "C/C++ Header"
  | "rb" => "Ruby"
  | "php" => "PHP"
  | "swift" => "Swift"
  | "kt" => "Kotlin"
  | "cs" => "C#"
  | "md" => "Markdown"
  | "json" => "JSON"
  | "yaml" | "yml" => "YAML"
  | "toml" => "TOML"
  | "xml" => "XML"
  | "html" => "HTML"
  | "css" => "CSS"
  | "scss" => "SCSS"
  | "sh" => "Shell"
  | _ => "Other"

end WorkSummary

namespace CodeCost

/-! String helpers.  Lean's own `String.trim`, `startsWith`, `toLower` and
substring search are not kernel-reducible, so the Rust `str` operations
used by `code-cost/src/metrics/mod.rs` are modelled on the character
list of the string (ASCII case folding, the same whitespace class as
`char::is_whitespace` restricted to the ASCII whitespace that
`Char.isWhitespace` covers). -/

/-- Model of Rust `str::contains` (substring search). -/
def strContains (s pat : String) : Bool :=
  (List.range (s.toList.length + 1)).any fun i =>
    List.isPrefixOf pat.toList (s.toList.drop i)

/-- Model of Rust `str::starts_with`. -/
def strStartsWith (s pat : String) : Bool :=
  List.isPrefixOf pat.toList s.toList

/-- Model of Rust `str::trim`: strip whitespace from both ends. -/
def strTrim (s : String) : String :=
  ⟨((s.toList.dropWhile Char.isWhitespace).reverse.dropWhile Char.isWhitespace).reverse⟩

/-- ASCII model of Rust `char::to_lowercase` as used on file names. -/
def charToLower (c : Char) : Char :=
  if 'A' ≤ c ∧ c ≤ 'Z' then Char.ofNat (c.toNat + 32) else c

/-- ASCII model of Rust `str::to_lowercase`. -/
def strToLower (s : String) : String := ⟨s.toList.map charToLower⟩

/-- The extension table of `detect_language` from
`code-cost/src/metrics/mod.rs` (the `path.extension()?` step is the
`Option.bind` in `detect_language` below). -/
def detect_language_ext (ext : String) : Option String :=
  match ext with
  | "rs" => some "Rust"
  | "py" => some "Python"
  | "js" | "jsx" => some "JavaScript"
  | "ts" | "tsx" => some "TypeScript"
  | "go" => some "Go"
  | "java" => some "Java"
  | "c" => some "C"
  | "cpp" | "cc" | "cxx" => some "C++"
  | "h" | "hpp" => some "C/C++ Header"
  | "cs" => some "C#"
  | "rb" => some "Ruby"
  | "php" => some "PHP"
  | "swift" => some "Swift"
  | "kt" | "kts" => some "Kotlin"
  | "scala" => some "Scala"
  | "sh" | "bash" => some "Shell"
  | "sql" => some "SQL"
  | "html" => some "HTML"
  | "css" => some "CSS"
  | "scss" | "sass" => some "SCSS"
  | "md" | "markdown" => some "Markdown"
  | "yaml" | "yml" => some "YAML"
  | "json" => some "JSON"
  | "toml" => some "TOML"
  | "xml" => some "XML"
  | _ => none

/-- `detect_language`: `path.extension()` yields `none` for a path without
an extension, in which case the `?` returns `None` immediately. -/
def detect_language (ext? : Option String) : Option String :=
  ext?.bind detect_language_ext

/-- `get_language_weight` from `code-cost/src/metrics/mod.rs`. -/
def get_language_weight (lang : String) : ℚ :=
  match lang with
  | "Rust" => 1.5
  | "C++" | "C" => 1.4
  | "Go" => 1.3
  | "Java" | "C#" | "Scala" => 1.2
  | "TypeScript" | "Swift" | "Kotlin" => 1.2
  | "Python" | "Ruby" | "PHP" => 1.1
  | "JavaScript" => 1.0
  | "Shell" | "SQL" => 0.9
  | "HTML" | "CSS" | "SCSS" => 0.7
  | "Markdown" | "YAML" | "JSON" | "TOML" | "XML" => 0.5
  | _ => 1.0

/-- The per-language comment-syntax table of `count_line_types`:
`(single_comment, multi_start, multi_end)`. -/
def commentSyntax (lang : String) : String × String × String :=
  match lang with
  | "Rust" | "C++" | "C" | "Go" | "Java" | "C#" | "JavaScript" | "TypeScript"
  | "Swift" | "Kotlin" | "Scala" | "PHP" => ("//", "/*", "*/")
  | "Python" | "Ruby" | "Shell" => ("#", "", "")
  | "HTML" | "XML" => ("", "<!--", "-->")
  | "CSS" | "SCSS" => ("", "/*", "*/")
  | _ => ("", "", "")

/-- The line loop of `count_line_types`, carrying the
`in_multiline_comment` flag; returns `(code, comments, blanks)`.  Each line
increments exactly one of the three counters. -/
def countLoop (single mstart mend : String) (in_multiline_comment : Bool) :
    List String → Nat × Nat × Nat
  | [] => (0, 0, 0)
  | line :: rest =>
    let trimmed := strTrim line
    if trimmed.toList.isEmpty then
      let t := countLoop single mstart mend in_multiline_comment rest
      (t.1, t.2.1, t.2.2 + 1)
    else if (!mstart.toList.isEmpty) && strContains trimmed mstart then
      -- enter comment mode; leave it again if the end marker is on this line
      let t := countLoop single mstart mend (!(strContains trimmed mend)) rest
      (t.1, t.2.1 + 1, t.2.2)
    else if in_multiline_comment then
      let t := countLoop single mstart mend
        (!((!mend.toList.isEmpty) && strContains trimmed mend)) rest
      (t.1, t.2.1 + 1, t.2.2)
    else if (!single.toList.isEmpty) && strStartsWith trimmed single then
      let t := countLoop single mstart mend in_multiline_comment rest
      (t.1, t.2.1 + 1, t.2.2)
    else
      let t := countLoop single mstart mend in_multiline_comment rest
      (t.1 + 1, t.2.1, t.2.2)

/-- `count_line_types` from `code-cost/src/metrics/mod.rs`. -/
def count_line_types (lines : List String) (lang : String) : Nat × Nat × Nat :=
  let syn := commentSyntax lang
  countLoop syn.1 syn.2.1 syn.2.2 false lines

/-- A file seen by the tree walk of `MetricsCollector::collect`: its
directory components, file name, `path.extension()`, and its lines when
`std::fs::read_to_string` succeeds (`none` models a file that fails to
decode as text). -/
structure FileEntry where
  dirs : List String
  name : String
  ext : Option String
  content : Option (List String)
deriving DecidableEq, Repr

/-- `Metrics` from `code-cost/src/metrics/mod.rs`.  `language_map` is the
`HashMap<String, (usize, usize)>` (language → lines, files) as an
association list; the source decorates it with the fixed weights and sorts
it by descending lines into `language_stats`, a bijective re-presentation
of the same map. -/
structure Metrics where
  total_lines : Nat
  code_lines : Nat
  comment_lines : Nat
  blank_lines : Nat
  total_files : Nat
  test_file_count : Nat
  has_readme : Bool
  language_map : List (String × Nat × Nat)
deriving DecidableEq, Repr

/-- The `ignored_dirs` deny-list of `is_ignored`. -/
def ignored_dirs : List String :=
  ["target", "dist", "build", "out", "node_modules", "vendor",
   ".venv", "venv", "env", "virtualenv", "__pycache__", ".pytest_cache",
   ".mypy_cache", ".tox", ".git", ".svn", ".hg", ".next", ".nuxt",
   ".cache", ".idea", ".vscode", ".vs"]

/-- `is_ignored`: any path component on the deny-list. -/
def is_ignored (f : FileEntry) : Bool :=
  (f.dirs ++ [f.name]).any fun c => ignored_dirs.contains c

/-- `is_test_file`. -/
def is_test_file (f : FileEntry) : Bool :=
  let lower := strToLower (String.intercalate "/" (f.dirs ++ [f.name]))
  strContains lower "test" || strContains lower "spec" || strContains lower "__tests__"

/-- `language_map.entry(lang).or_insert((0,0))` followed by adding the
line count and one file. -/
def bumpLang (lang : String) (lines : Nat) :
    List (String × Nat × Nat) → List (String × Nat × Nat)
  | [] => [(lang, lines, 1)]
  | e :: es =>
    if e.1 = lang then (e.1, e.2.1 + lines, e.2.2 + 1) :: es
    else e :: bumpLang lang lines es

/-- The body of the walk loop of `MetricsCollector::collect` for one file.
The `WalkDir` pruning of ignored directories is the `is_ignored` guard; a
file whose `read_to_string` fails (`content = none`) falls through the
`if let Ok(content)` and leaves all line counters and the language map
untouched — after `total_files` (and possibly `test_file_count`) were
already incremented. -/
def collectStep (m : Metrics) (f : FileEntry) : Metrics :=
  if is_ignored f then m
  else
    let m := if strStartsWith (strToLower f.name) "readme"
      then { m with has_readme := true } else m
    match detect_language f.ext with
    | none => m
    | some lang_name =>
      let m := { m with
        total_files := m.total_files + 1,
        test_file_count := m.test_file_count + (if is_test_file f then 1 else 0) }
      match f.content with
      | none => m
      | some lines =>
        let counts := count_line_types lines lang_name
        { m with
          total_lines := m.total_lines + lines.length,
          code_lines := m.code_lines + counts.1,
          comment_lines := m.comment_lines + counts.2.1,
          blank_lines := m.blank_lines + counts.2.2,
          language_map := bumpLang lang_name lines.length m.language_map }

def emptyMetrics : Metrics :=
  { total_lines := 0, code_lines := 0, comment_lines := 0, blank_lines := 0,
    total_files := 0, test_file_count := 0, has_readme := false, language_map := [] }

/-- `MetricsCollector::collect` over the files produced by the tree walk. -/
def collect (files : List FileEntry) : Metrics :=
  files.foldl collectStep emptyMetrics

end CodeCost

/-- **C5 (counterexample).** The two language tables are not identical and
the per-commit attributor never skips: `"scala"` (likewise `kts`, `bash`,
`sql`, `sass`, `markdown`) is classified by the static counter but tagged
`"Other"` by the attributor, and an extension unrecognized by the
classifier (here `"xyz"`) is skipped by the static counter yet still tagged
`"Other"` — not skipped — by the attributor. -/
theorem C5_counterexample :
    CodeCost.detect_language_ext "scala" = some "Scala" ∧
      WorkSummary.extension_to_language "scala" = "Other" ∧
      ("Scala" : String) ≠ "Other" ∧
      CodeCost.detect_language_ext "xyz" = none ∧
      WorkSummary.extension_to_language "xyz" = "Other" :=
  ⟨rfl, rfl, by decide, rfl, rfl⟩

/-- **C5 (amended).** On every extension to which the per-commit attributor
assigns a specific language (anything but its default `"Other"`), the
static classifier assigns exactly the same tag, and that tag has the same
effort weight in both weight tables; and every extension unrecognized by
the static classifier is mapped to `"Other"` by the attributor.  The
agreement fails only in the attributor-to-classifier direction (`kts`,
`scala`, `bash`, `sql`, `sass`, `markdown` are classified statically but
tagged `"Other"` per-commit), and unrecognized extensions are skipped only
by the static counter. -/
theorem C5_amended (ext : String) :
    (WorkSummary.extension_to_language ext ≠ "Other" →
        CodeCost.detect_language_ext ext =
            some (WorkSummary.extension_to_language ext) ∧
          WorkSummary.get_language_weight (WorkSummary.extension_to_language ext) =
            CodeCost.get_language_weight (WorkSummary.extension_to_language ext)) ∧
      (CodeCost.detect_language_ext ext = none →
        WorkSummary.extension_to_language ext = "Other") := by
  unfold WorkSummary.extension_to_language
  split <;>
    first
      | exact ⟨fun hne => ⟨rfl, rfl⟩, fun hnone => Option.noConfusion hnone⟩
      | exact ⟨fun hne => absurd rfl hne, fun _ => rfl⟩

/-- Witness for C5 (amended): the `rs` extension agrees across the two
tables, and the unknown extension `xyz` falls to `"Other"`. -/
theorem C5_amended_witness :
    (CodeCost.detect_language_ext "rs" =
          some (WorkSummary.extension_to_language "rs") ∧
        WorkSummary.get_language_weight (WorkSummary.extension_to_language "rs") =
          CodeCost.get_language_weight (WorkSummary.extension_to_language "rs")) ∧
      WorkSummary.extension_to_language "xyz" = "Other" :=
  ⟨(C5_amended "rs").1 (by decide), (C5_amended "xyz").2 rfl⟩

namespace CodeCost

/-- The file of the C7 counterexample/witness: classified as Rust, fails to
decode as text. -/
def fileC7 : FileEntry :=
  { dirs := ["src"], name := "main.rs", ext := some "rs", content := none }

end CodeCost

/-- **C7 (counterexample).** A classified file that fails to decode as text
*is* counted: `total_files` is incremented before the read is attempted, so
a tree holding exactly one such file reports `total_files = 1` where the
claim requires it not to be counted (line counters and the language map do
stay untouched). -/
theorem C7_counterexample :
    (CodeCost.collect [CodeCost.fileC7]).total_files = 1 ∧
      (CodeCost.collect [CodeCost.fileC7]).total_lines = 0 ∧
      (CodeCost.collect [CodeCost.fileC7]).code_lines = 0 ∧
      (CodeCost.collect [CodeCost.fileC7]).comment_lines = 0 ∧
      (CodeCost.collect [CodeCost.fileC7]).blank_lines = 0 ∧
      (CodeCost.collect [CodeCost.fileC7]).language_map = [] := by
  refine ⟨?_, ?_, ?_, ?_, ?_, ?_⟩ <;> decide

/-- **C7 (amended).** A non-ignored classified file whose text read fails is
skipped from every line counter and from the per-language map, and the walk
continues (the step is total, no error escapes) — but it *is* counted in
`total_files`, and in `test_file_count` when its path matches the test
patterns. -/
theorem C7_amended (m : CodeCost.Metrics) (f : CodeCost.FileEntry) (lang : String)
    (h0 : CodeCost.is_ignored f = false)
    (h1 : CodeCost.detect_language f.ext = some lang)
    (h2 : f.content = none) :
    (CodeCost.collectStep m f).total_lines = m.total_lines ∧
      (CodeCost.collectStep m f).code_lines = m.code_lines ∧
      (CodeCost.collectStep m f).comment_lines = m.comment_lines ∧
      (CodeCost.collectStep m f).blank_lines = m.blank_lines ∧
      (CodeCost.collectStep m f).language_map = m.language_map ∧
      (CodeCost.collectStep m f).total_files = m.total_files + 1 ∧
      (CodeCost.collectStep m f).test_file_count =
        m.test_file_count + (if CodeCost.is_test_file f then 1 else 0) := by
  unfold CodeCost.collectStep
  rw [h1, h2, if_neg (by simp [h0])]
  split <;> exact ⟨rfl, rfl, rfl, rfl, rfl, rfl, rfl⟩

/-- Witness for C7 (amended) at the concrete undecodable Rust file. -/
theorem C7_amended_witness :
    (CodeCost.collectStep CodeCost.emptyMetrics CodeCost.fileC7).total_lines =
        CodeCost.emptyMetrics.total_lines ∧
      (CodeCost.collectStep CodeCost.emptyMetrics CodeCost.fileC7).code_lines =
        CodeCost.emptyMetrics.code_lines ∧
      (CodeCost.collectStep CodeCost.emptyMetrics CodeCost.fileC7).comment_lines =
        CodeCost.emptyMetrics.comment_lines ∧
      (CodeCost.collectStep CodeCost.emptyMetrics CodeCost.fileC7).blank_lines =
        CodeCost.emptyMetrics.blank_lines ∧
      (CodeCost.collectStep CodeCost.emptyMetrics CodeCost.fileC7).language_map =
        CodeCost.emptyMetrics.language_map ∧
      (CodeCost.collectStep CodeCost.emptyMetrics CodeCost.fileC7).total_files =
        CodeCost.emptyMetrics.total_files + 1 ∧
      (CodeCost.collectStep CodeCost.emptyMetrics CodeCost.fileC7).test_file_count =
        CodeCost.emptyMetrics.test_file_count +
          (if CodeCost.is_test_file CodeCost.fileC7 then 1 else 0) :=
  C7_amended CodeCost.emptyMetrics CodeCost.fileC7 "Rust" (by decide) rfl rfl

namespace CodeCost

/-- Each line of the classification loop increments exactly one of the
three counters, whatever the comment syntax and the current state. -/
theorem countLoop_partition (lines : List String) :
    ∀ (single mstart mend : String) (inm : Bool),
      (countLoop single mstart mend inm lines).1 +
        (countLoop single mstart mend inm lines).2.1 +
        (countLoop single mstart mend inm lines).2.2 = lines.length := by
  induction lines with
  | nil => intro _ _ _ _; rfl
  | cons line rest ih =>
    intro single mstart mend inm
    unfold countLoop
    dsimp only
    split
    · have h := ih single mstart mend inm
      simp only [List.length_cons]
      omega
    · split
      · have h := ih single mstart mend (!(strContains (strTrim line) mend))
        simp only [List.length_cons]
        omega
      · split
        · have h := ih single mstart mend
            (!((!mend.toList.isEmpty) && strContains (strTrim line) mend))
          simp only [List.length_cons]
          omega
        · split
          · have h := ih single mstart mend inm
            simp only [List.length_cons]
            omega
          · have h := ih single mstart mend inm
            simp only [List.length_cons]
            omega

/-- The line-type counts of a whole file sum to its line count. -/
theorem count_line_types_partition (lines : List String) (lang : String) :
    (count_line_types lines lang).1 + (count_line_types lines lang).2.1 +
      (count_line_types lines lang).2.2 = lines.length := by
  unfold count_line_types
  exact countLoop_partition lines _ _ _ false

theorem partition_arith {a b c t x y z n : Nat} (h : a + b + c = t)
    (hc : x + y + z = n) : (a + x) + (b + y) + (c + z) = t + n := by omega

/-- One walk step preserves `code + comment + blank = total`. -/
theorem collectStep_partition (m : Metrics) (f : FileEntry)
    (h : m.code_lines + m.comment_lines + m.blank_lines = m.total_lines) :
    (collectStep m f).code_lines + (collectStep m f).comment_lines +
      (collectStep m f).blank_lines = (collectStep m f).total_lines := by
  unfold collectStep
  split
  · exact h
  · dsimp only
    repeat' split
    all_goals
      first
        | exact h
        | exact partition_arith h (count_line_types_partition _ _)

end CodeCost

/-- **C10.** Line classification is a partition: for every file content and
language, the code/comment/blank counts of `count_line_types` sum to the
number of lines; consequently for every tree walk the process-wide
`code_lines + comment_lines + blank_lines` equals `total_lines`. -/
theorem C10_line_partition :
    (∀ (lines : List String) (lang : String),
        (CodeCost.count_line_types lines lang).1 +
          (CodeCost.count_line_types lines lang).2.1 +
          (CodeCost.count_line_types lines lang).2.2 = lines.length) ∧
      ∀ files : List CodeCost.FileEntry,
        (CodeCost.collect files).code_lines + (CodeCost.collect files).comment_lines +
          (CodeCost.collect files).blank_lines = (CodeCost.collect files).total_lines := by
  constructor
  · intro lines lang
    unfold CodeCost.count_line_types
    exact CodeCost.countLoop_partition lines _ _ _ false
  · have hstep : ∀ (fs : List CodeCost.FileEntry) (m : CodeCost.Metrics),
        m.code_lines + m.comment_lines + m.blank_lines = m.total_lines →
        (fs.foldl CodeCost.collectStep m).code_lines +
          (fs.foldl CodeCost.collectStep m).comment_lines +
          (fs.foldl CodeCost.collectStep m).blank_lines =
          (fs.foldl CodeCost.collectStep m).total_lines := by
      intro fs
      induction fs with
      | nil => intro m hm; exact hm
      | cons f fs ih =>
        intro m hm
        exact ih _ (CodeCost.collectStep_partition m f hm)
    intro files
    exact hstep files CodeCost.emptyMetrics rfl

namespace WorkSummary

/-- `DeveloperLevel` from `work-summary/src/analyzer/value_calculator.rs`. -/
structure DeveloperLevel where
  level : String
  multiplier : ℚ
  hourly_rate : ℚ
  total_value : ℚ
deriving DecidableEq, Repr

/-- `ValueEstimate` from `work-summary/src/analyzer/value_calculator.rs`. -/
structure ValueEstimate where
  estimated_hours : ℚ
  base_hourly_rate : ℚ
  developer_levels : List DeveloperLevel
  recommended_value : ℚ
deriving DecidableEq, Repr

namespace ValueEstimate

/-- `ValueEstimate::calculate_complexity_factor`. -/
def calculate_complexity_factor (total_changes : Nat) : ℚ :=
  if total_changes < 100 then 0.8
  else if total_changes < 500 then 1.0
  else if total_changes < 2000 then 1.2
  else 1.4

/-- `ValueEstimate::calculate`. -/
def calculate (estimated_hours base_hourly_rate : ℚ) (total_changes : Nat) :
    ValueEstimate :=
  let complexity_factor := calculate_complexity_factor total_changes
  let levels : List (String × ℚ) :=
    [("Junior", 1.0), ("Mid-level", 1.5), ("Senior", 2.0), ("Lead", 2.5),
     ("Principal", 3.0)]
  let developer_levels : List DeveloperLevel :=
    levels.map fun p =>
      let hourly_rate := base_hourly_rate * p.2 * complexity_factor
      let total_value := estimated_hours * hourly_rate
      { level := p.1, multiplier := p.2, hourly_rate := hourly_rate,
        total_value := total_value }
  let mid_level_value :=
    ((developer_levels.find? fun l => l.level == "Mid-level").map
      DeveloperLevel.total_value).getD 0
  { estimated_hours := estimated_hours, base_hourly_rate := base_hourly_rate,
    developer_levels := developer_levels, recommended_value := mid_level_value }

end ValueEstimate

namespace SpecC9

/-- The complexity-factor bands exactly as the claim words them. -/
def complexityFactor (totalChangeVolume : Nat) : ℚ :=
  if totalChangeVolume < 100 then 0.8
  else if totalChangeVolume < 500 then 1.0
  else if totalChangeVolume < 2000 then 1.2
  else 1.4

/-- One claimed level entry: `hourly_rate = baseHourlyRate * multiplier *
complexityFactor`, `total_value = estimatedHours * hourly_rate`. -/
def levelEntry (estimatedHours baseHourlyRate cf : ℚ) (name : String)
    (multiplier : ℚ) : DeveloperLevel :=
  { level := name, multiplier := multiplier,
    hourly_rate := baseHourlyRate * multiplier * cf,
    total_value := estimatedHours * (baseHourlyRate * multiplier * cf) }

/-- The five fixed levels exactly as the claim words them. -/
def levels (estimatedHours baseHourlyRate cf : ℚ) : List DeveloperLevel :=
  [levelEntry estimatedHours baseHourlyRate cf "Junior" 1.0,
   levelEntry estimatedHours baseHourlyRate cf "Mid-level" 1.5,
   levelEntry estimatedHours baseHourlyRate cf "Senior" 2.0,
   levelEntry estimatedHours baseHourlyRate cf "Lead" 2.5,
   levelEntry estimatedHours baseHourlyRate cf "Principal" 3.0]

end SpecC9

end WorkSummary

/-- **C9.** The value calculation uses the claimed complexity bands
(0.8 below 100, 1.0 in [100,500), 1.2 in [500,2000), 1.4 at or above
2000), builds exactly the five fixed levels Junior 1.0, Mid-level 1.5,
Senior 2.0, Lead 2.5, Principal 3.0 with
`hourly_rate = base * multiplier * factor` and
`total_value = hours * hourly_rate`, and recommends the Mid-level entry's
total value. -/
theorem C9_value_calculation (hours rate : ℚ) (changes : Nat) :
    WorkSummary.ValueEstimate.calculate hours rate changes =
      { estimated_hours := hours, base_hourly_rate := rate,
        developer_levels :=
          WorkSummary.SpecC9.levels hours rate
            (WorkSummary.SpecC9.complexityFactor changes),
        recommended_value :=
          hours * (rate * 1.5 * WorkSummary.SpecC9.complexityFactor changes) } ∧
      (WorkSummary.ValueEstimate.calculate hours rate changes).developer_levels.find?
          (fun l => l.level == "Mid-level") =
        some (WorkSummary.SpecC9.levelEntry hours rate
          (WorkSummary.SpecC9.complexityFactor changes) "Mid-level" 1.5) ∧
      (WorkSummary.ValueEstimate.calculate hours rate changes).recommended_value =
        (((WorkSummary.ValueEstimate.calculate hours rate changes).developer_levels.find?
            (fun l => l.level == "Mid-level")).map
          WorkSummary.DeveloperLevel.total_value).getD 0 :=
  ⟨rfl, rfl, rfl⟩

namespace WorkSummary

/-- `ContributorStats` from `work-summary/src/analyzer/contribution.rs`. -/
structure ContributorStats where
  name : String
  email : String
  commit_count : Nat
  insertions : Nat
  deletions : Nat
  files_changed : Nat
  percentage : ℚ
deriving DecidableEq, Repr

/-- `ContributorData` from `work-summary/src/analyzer/contribution.rs`. -/
structure ContributorData where
  name : String
  email : String
  commit_count : Nat
  insertions : Nat
  deletions : Nat
  files_changed : Nat
deriving DecidableEq, Repr

/-- The `contributor_map.entry(email).or_insert_with(...)` update followed
by the `+=` accumulation, for one commit.  The `HashMap` is an association
list keyed by email; a fresh contributor takes the name of its first
commit. -/
def bumpContributor (commit : CommitInfo) :
    List ContributorData → List ContributorData
  | [] =>
    [{ name := commit.author, email := commit.email, commit_count := 1,
       insertions := commit.insertions, deletions := commit.deletions,
       files_changed := commit.files_changed }]
  | d :: ds =>
    if d.email = commit.email then
      { d with commit_count := d.commit_count + 1,
               insertions := d.insertions + commit.insertions,
               deletions := d.deletions + commit.deletions,
               files_changed := d.files_changed + commit.files_changed } :: ds
    else d :: bumpContributor commit ds

/-- The grouping loop of `ContributorStats::from_commits`. -/
def contributorMap (commits : List CommitInfo) : List ContributorData :=
  commits.foldl (fun acc c => bumpContributor c acc) []

/-- The `ContributorStats` record built from one group:
`percentage = (count / total) * 100`, 0 when the total is 0. -/
def statsOf (total_commits : Nat) (d : ContributorData) : ContributorStats :=
  { name := d.name, email := d.email, commit_count := d.commit_count,
    insertions := d.insertions, deletions := d.deletions,
    files_changed := d.files_changed,
    percentage :=
      if total_commits > 0 then
        ((d.commit_count : ℚ) / (total_commits : ℚ)) * 100
      else 0 }

/-- Stable insertion into a list sorted by descending commit count.
`sortDesc` below models the source's stable
`sort_by(|a, b| b.commit_count.cmp(&a.commit_count))`; the underlying
`HashMap` iteration order is arbitrary anyway, so only the descending
order and the multiset of entries are source-determined. -/
def insertDesc (s : ContributorStats) :
    List ContributorStats → List ContributorStats
  | [] => [s]
  | t :: ts =>
    if t.commit_count ≤ s.commit_count then s :: t :: ts
    else t :: insertDesc s ts

def sortDesc : List ContributorStats → List ContributorStats
  | [] => []
  | s :: ss => insertDesc s (sortDesc ss)

/-- `ContributorStats::from_commits`. -/
def from_commits (commits : List CommitInfo) : List ContributorStats :=
  let total_commits := commits.length
  sortDesc ((contributorMap commits).map (statsOf total_commits))

/-- Descending order of commit counts. -/
def byDescCount (a b : ContributorStats) : Prop :=
  b.commit_count ≤ a.commit_count

theorem bumpContributor_count_sum (c : CommitInfo) (acc : List ContributorData) :
    ((bumpContributor c acc).map ContributorData.commit_count).sum =
      (acc.map ContributorData.commit_count).sum + 1 := by
  induction acc with
  | nil => rfl
  | cons d ds ih =>
    unfold bumpContributor
    split
    · simp only [List.map_cons, List.sum_cons]
      omega
    · simp only [List.map_cons, List.sum_cons, ih]
      omega

theorem contributorMap_count_sum (commits : List CommitInfo) :
    ((contributorMap commits).map ContributorData.commit_count).sum =
      commits.length := by
  suffices h : ∀ (cs : List CommitInfo) (acc : List ContributorData),
      ((cs.foldl (fun a c => bumpContributor c a) acc).map
        ContributorData.commit_count).sum =
        (acc.map ContributorData.commit_count).sum + cs.length by
    simpa using h commits []
  intro cs
  induction cs with
  | nil => intro acc; simp
  | cons c cs ih =>
    intro acc
    simp only [List.foldl_cons, List.length_cons]
    rw [ih (bumpContributor c acc), bumpContributor_count_sum]
    omega

theorem insertDesc_perm (s : ContributorStats) (l : List ContributorStats) :
    (insertDesc s l).Perm (s :: l) := by
  induction l with
  | nil => exact List.Perm.refl _
  | cons t ts ih =>
    unfold insertDesc
    split
    · exact List.Perm.refl _
    · exact (ih.cons t).trans (List.Perm.swap s t ts)

theorem sortDesc_perm (l : List ContributorStats) : (sortDesc l).Perm l := by
  induction l with
  | nil => exact List.Perm.refl _
  | cons s ss ih => exact (insertDesc_perm s (sortDesc ss)).trans (ih.cons s)

theorem insertDesc_head (s : ContributorStats) (ts : List ContributorStats) :
    (insertDesc s ts).head? = some s ∨ (insertDesc s ts).head? = ts.head? := by
  cases ts with
  | nil => exact Or.inl rfl
  | cons t ts =>
    unfold insertDesc
    split
    · exact Or.inl rfl
    · exact Or.inr rfl

theorem insertDesc_chain (s : ContributorStats) (l : List ContributorStats)
    (h : List.Chain' byDescCount l) :
    List.Chain' byDescCount (insertDesc s l) := by
  induction l with
  | nil => exact List.chain'_singleton s
  | cons t ts ih =>
    unfold insertDesc
    split
    · rename_i hle
      exact List.chain'_cons.mpr ⟨hle, h⟩
    · rename_i hgt
      refine List.chain'_cons'.mpr ⟨?_, ih h.tail⟩
      intro y hy
      rcases insertDesc_head s ts with hh | hh
      · rw [hh] at hy
        simp only [Option.mem_def, Option.some_inj] at hy
        subst hy
        unfold byDescCount
        omega
      · rw [hh] at hy
        exact (List.chain'_cons'.mp h).1 y hy

theorem sortDesc_chain (l : List ContributorStats) :
    List.Chain' byDescCount (sortDesc l) := by
  induction l with
  | nil => exact List.chain'_nil
  | cons s ss ih => exact insertDesc_chain s (sortDesc ss) ih

theorem statsOf_percentage_sum (n : Nat) (hn : 0 < n)
    (ds : List ContributorData) :
    ((ds.map (statsOf n)).map ContributorStats.percentage).sum =
      ((ds.map ContributorData.commit_count).sum : ℚ) / n * 100 := by
  induction ds with
  | nil => simp
  | cons d ds ih =>
    simp only [List.map_cons, List.sum_cons, ih, statsOf, hn, if_pos]
    push_cast
    ring

end WorkSummary

/-- **C8.** For a non-empty commit sequence, grouping by author email gives
contributor stats whose commit counts sum to the number of commits, whose
percentages are each `100 * group_count / total` and hence sum to exactly
100 (in exact arithmetic, so certainly ≈ 100 in floating point), ordered by
descending commit count. -/
theorem C8_contributors (commits : List WorkSummary.CommitInfo)
    (hne : commits ≠ []) :
    ((WorkSummary.from_commits commits).map
        WorkSummary.ContributorStats.commit_count).sum = commits.length ∧
      (∀ s ∈ WorkSummary.from_commits commits,
        s.percentage = 100 * (s.commit_count : ℚ) / (commits.length : ℚ)) ∧
      ((WorkSummary.from_commits commits).map
        WorkSummary.ContributorStats.percentage).sum = 100 ∧
      List.Chain' WorkSummary.byDescCount (WorkSummary.from_commits commits) := by
  have hn : 0 < commits.length := List.length_pos.mpr hne
  have hperm :
      (WorkSummary.from_commits commits).Perm
        ((WorkSummary.contributorMap commits).map
          (WorkSummary.statsOf commits.length)) :=
    WorkSummary.sortDesc_perm _
  have hmapcount :
      ((WorkSummary.contributorMap commits).map
        (WorkSummary.statsOf commits.length)).map
          WorkSummary.ContributorStats.commit_count =
        (WorkSummary.contributorMap commits).map
          WorkSummary.ContributorData.commit_count := by
    rw [List.map_map]
    rfl
  refine ⟨?_, ?_, ?_, ?_⟩
  · rw [(hperm.map WorkSummary.ContributorStats.commit_count).sum_eq, hmapcount,
      WorkSummary.contributorMap_count_sum]
  · intro s hs
    have hs' := hperm.mem_iff.mp hs
    obtain ⟨d, _, rfl⟩ := List.mem_map.mp hs'
    unfold WorkSummary.statsOf
    simp only [hn, if_pos]
    ring
  · rw [(hperm.map WorkSummary.ContributorStats.percentage).sum_eq,
      WorkSummary.statsOf_percentage_sum commits.length hn,
      WorkSummary.contributorMap_count_sum]
    have : (commits.length : ℚ) ≠ 0 := by positivity
    field_simp
  · exact WorkSummary.sortDesc_chain _

namespace WorkSummary

/-- Three commits by two authors for the C8 witness. -/
def commitsC8 : List CommitInfo :=
  [{ hash := "1", author := "A", email := "a@x", timestamp := 2, message := ""
     files_changed := 1, insertions := 3, deletions := 1, language_changes := [] },
   { hash := "2", author := "A", email := "a@x", timestamp := 1, message := ""
     files_changed := 2, insertions := 1, deletions := 0, language_changes := [] },
   { hash := "3", author := "B", email := "b@x", timestamp := 0, message := ""
     files_changed := 1, insertions := 2, deletions := 2, language_changes := [] }]

end WorkSummary

/-- Witness for C8 at a concrete three-commit history. -/
theorem C8_contributors_witness :
    ((WorkSummary.from_commits WorkSummary.commitsC8).map
        WorkSummary.ContributorStats.commit_count).sum =
        WorkSummary.commitsC8.length ∧
      (∀ s ∈ WorkSummary.from_commits WorkSummary.commitsC8,
        s.percentage =
          100 * (s.commit_count : ℚ) / (WorkSummary.commitsC8.length : ℚ)) ∧
      ((WorkSummary.from_commits WorkSummary.commitsC8).map
        WorkSummary.ContributorStats.percentage).sum = 100 ∧
      List.Chain' WorkSummary.byDescCount
        (WorkSummary.from_commits WorkSummary.commitsC8) :=
  C8_contributors WorkSummary.commitsC8 (by simp [WorkSummary.commitsC8])

namespace WorkSummary

/-! Model of `CommitAnalyzer::new` / `analyze_commits` from
`work-summary/src/git/mod.rs`.  The git2 calls are modelled by their
outcomes:
* `Repository::open` — an `Except Unit RepoWalk` (the argument of
  `analyzeAll`);
* `revwalk()` / `push_head()` — `RepoWalk.walkSetup`, failing as a unit
  error (both are propagated by `?`);
* each revwalk iteration — one list item, where `Except.error ()` is a
  failing `oid?` or `find_commit(oid)?` (both abort via `?`), and
  `Except.ok r` a found commit whose `extract_commit_info` result is `r`
  (`Except.error ()` there is skipped by the `if let Ok(info)`). -/

structure RepoWalk where
  walkSetup : Except Unit (List (Except Unit (Except Unit CommitInfo)))

/-- The `for oid in revwalk` loop with the `limit` cutoff and the running
`count` of extracted commits; the `break` returns what was collected so
far, which the recursion re-assembles by prepending. -/
def analyzeLoop (limit : Option Nat) (count : Nat) :
    List (Except Unit (Except Unit CommitInfo)) → Except Unit (List CommitInfo)
  | [] => Except.ok []
  | item :: rest =>
    if (match limit with | some lim => Nat.ble lim count | none => false) then
      Except.ok []
    else
      match item with
      | Except.error e => Except.error e
      | Except.ok (Except.error _) => analyzeLoop limit count rest
      | Except.ok (Except.ok info) =>
        (analyzeLoop limit (count + 1) rest).map (info :: ·)

/-- `CommitAnalyzer::analyze_commits`. -/
def analyze_commits (limit : Option Nat) (repo : RepoWalk) :
    Except Unit (List CommitInfo) := do
  let items ← repo.walkSetup
  analyzeLoop limit 0 items

/-- `CommitAnalyzer::new(path)?.analyze_commits(limit)`: the repository
open happens in `new` and is propagated by the caller. -/
def analyzeAll (openResult : Except Unit RepoWalk) (limit : Option Nat) :
    Except Unit (List CommitInfo) :=
  match openResult with
  | Except.error e => Except.error e
  | Except.ok repo => analyze_commits limit repo

theorem analyzeLoop_cons (limit : Option Nat) (count : Nat)
    (item : Except Unit (Except Unit CommitInfo))
    (rest : List (Except Unit (Except Unit CommitInfo))) :
    analyzeLoop limit count (item :: rest) =
      if (match limit with | some lim => Nat.ble lim count | none => false) then
        Except.ok []
      else
        match item with
        | Except.error e => Except.error e
        | Except.ok (Except.error _) => analyzeLoop limit count rest
        | Except.ok (Except.ok info) =>
          (analyzeLoop limit (count + 1) rest).map (info :: ·) := rfl

theorem analyzeLoop_break (limit : Option Nat) (count : Nat)
    (h : (match limit with | some lim => Nat.ble lim count | none => false) = true) :
    ∀ rest, analyzeLoop limit count rest = Except.ok [] := by
  intro rest
  cases rest with
  | nil => rfl
  | cons item rest =>
    unfold analyzeLoop
    rw [if_pos h]

theorem analyzeLoop_ok (limit : Option Nat) :
    ∀ (items : List (Except Unit (Except Unit CommitInfo))),
      (∀ it ∈ items, ∃ x, it = Except.ok x) →
      ∀ count, ∃ l, analyzeLoop limit count items = Except.ok l := by
  intro items
  induction items with
  | nil => exact fun _ _ => ⟨[], rfl⟩
  | cons item rest ih =>
    intro h count
    unfold analyzeLoop
    split
    · exact ⟨[], rfl⟩
    · obtain ⟨x, hx⟩ := h item (List.mem_cons_self item rest)
      have hrest := fun it hit => h it (List.mem_cons_of_mem item hit)
      subst hx
      cases x with
      | error e => exact ih hrest count
      | ok info =>
        obtain ⟨l, hl⟩ := ih hrest (count + 1)
        exact ⟨info :: l, by rw [hl]; rfl⟩

end WorkSummary

/-- **C6 (counterexample).** `analyze_commits` can fail although the
repository opened fine: `oid?` and `find_commit(oid)?` propagate a failing
commit lookup, so a successfully opened repository whose walk yields one
failing lookup errors the whole extraction — the error is *not* equivalent
to a repository-open failure. -/
theorem C6_counterexample :
    WorkSummary.analyzeAll
        (Except.ok { walkSetup := Except.ok [Except.error ()] }) none =
      Except.error () ∧
      (Except.ok { walkSetup := Except.ok [Except.error ()] } :
          Except Unit WorkSummary.RepoWalk) ≠ Except.error () :=
  ⟨rfl, fun h => Except.noConfusion h⟩

/-- **C6 (amended).** A repository-open failure always errors the
extraction; when the revwalk is created and every commit lookup succeeds
the extraction returns `Ok`; and a commit whose metadata/diff extraction
(`extract_commit_info`) fails is skipped without affecting the rest of the
walk or the overall result.  However, open failure is not the *only* error:
a failing revwalk setup or a failing per-commit lookup (`oid?`,
`find_commit?`) also aborts — see the counterexample. -/
theorem C6_amended (limit : Option Nat)
    (items : List (Except Unit (Except Unit WorkSummary.CommitInfo)))
    (h : ∀ it ∈ items, ∃ x, it = Except.ok x) :
    WorkSummary.analyzeAll (Except.error ()) limit = Except.error () ∧
      (∃ l, WorkSummary.analyzeAll
          (Except.ok { walkSetup := Except.ok items }) limit = Except.ok l) ∧
      ∀ (count : Nat) (rest : List (Except Unit (Except Unit WorkSummary.CommitInfo))),
        WorkSummary.analyzeLoop limit count (Except.ok (Except.error ()) :: rest) =
          WorkSummary.analyzeLoop limit count rest := by
  refine ⟨rfl, ?_, ?_⟩
  · exact WorkSummary.analyzeLoop_ok limit items h 0
  · intro count rest
    rw [WorkSummary.analyzeLoop_cons]
    split
    · rename_i hb
      rw [WorkSummary.analyzeLoop_break limit count hb rest]
    · rfl

namespace WorkSummary

/-- The concrete walk of the C6 witness: one commit whose extraction fails,
one extracted commit. -/
def itemsC6 : List (Except Unit (Except Unit CommitInfo)) :=
  [Except.ok (Except.error ()), Except.ok (Except.ok commitC1b)]

end WorkSummary

/-- Witness for C6 (amended) at a concrete walk. -/
theorem C6_amended_witness :
    WorkSummary.analyzeAll (Except.error ()) none = Except.error () ∧
      (∃ l, WorkSummary.analyzeAll
          (Except.ok { walkSetup := Except.ok WorkSummary.itemsC6 }) none =
        Except.ok l) ∧
      ∀ (count : Nat) (rest : List (Except Unit (Except Unit WorkSummary.CommitInfo))),
        WorkSummary.analyzeLoop none count (Except.ok (Except.error ()) :: rest) =
          WorkSummary.analyzeLoop none count rest :=
  C6_amended none WorkSummary.itemsC6 (by
    intro it hit
    rcases List.mem_cons.mp hit with rfl | hit
    · exact ⟨Except.error (), rfl⟩
    · rcases List.mem_singleton.mp hit with rfl
      exact ⟨Except.ok WorkSummary.commitC1b, rfl⟩)

/-- **C3.** The claim (and the spec) require a complexity factor of 1.4 for
more than 10 files changed.  The source tests `files_changed > 5` first, so
every commit with more than 10 files changed also gets factor 1.2 and the
1.4 arm is dead code: at `files_changed = 11` with base hours 1 the code
yields 1.2 where the claim requires 1.4.  The unreachable `1.4` arm shows
the band table was intended as specified, so this is a slip in the code. -/
theorem C3_code_eval :
    WorkSummary.estimate_from_changes WorkSummary.commitC3 = 6/5 ∧
      WorkSummary.estimate_from_changes WorkSummary.commitC3 ≠ 7/5 ∧
      WorkSummary.complexity_factor 11 = 6/5 := by
  refine ⟨?_, ?_, ?_⟩ <;>
    norm_num [WorkSummary.estimate_from_changes, WorkSummary.commitC3,
      WorkSummary.get_language_weight, WorkSummary.complexity_factor]
